import Mathlib

/-!
Shallow embedding of `reposync` (src/main.go), a tool that reconciles a
local directory of repository checkouts against the repositories of a
GitHub user or organization.

External collaborators (the GitHub client, `ioutil.ReadDir`, `os.MkdirAll`,
`os.Rename`, `git clone`) are modelled as an environment `Env` of oracles;
the effects `Sync` performs on them are recorded as a list of `Event`s.
Goroutine interleaving is serialized (archive tasks in list order, then
clone tasks in list order); the claims proved below concern which events
occur and what `Sync` returns, not their relative order.
-/

set_option autoImplicit false

namespace Reposync

/-- One repository entry as returned by the GitHub client: `Name` and
`Fork` are pointer fields in Go, hence `Option` here. -/
structure Repo where
  name : Option String
  fork : Option Bool
  deriving DecidableEq, Repr

/-- One entry of a directory listing, as returned by `ioutil.ReadDir`:
its base name and whether it is a directory. -/
structure DirEntry where
  name : String
  isDir : Bool
  deriving DecidableEq, Repr

/-- An observable effect of `Sync` on the outside world. -/
inductive Event where
  | log (msg : String)
  | mkdirAll (dir : String)
  | rename (src dst : String)
  | gitClone (remote dest : String)
  deriving DecidableEq, Repr

/-- The configuration record `RepoSync` from src/main.go. -/
structure RepoSync where
  org : String
  orgRepoType : String
  user : String
  userRepoType : String
  userRepoForks : Bool
  workdir : String
  archivedir : String
  token : String
  dryrun : Bool

/-- The environment of external collaborators.

`orgList`/`userList` map a page number to the provider's response for that
page: the repository entries and the `NextPage` indicator (`0` = no next
page). `readDir` is the result of `ioutil.ReadDir` on the working
directory (in Go, on error the returned slice is `nil`, so the error
branch carries no entries). `mkdirRes`, `renameRes` and `cloneRes` give
the error outcome of `os.MkdirAll`, `os.Rename` and `git clone`
(`cloneRes` yields the error together with the captured combined output). -/
structure Env where
  orgList : Nat → Except String (List Repo × Nat)
  userList : Nat → Except String (List Repo × Nat)
  readDir : Except String (List DirEntry)
  mkdirRes : Option String
  renameRes : String → String → Option String
  cloneRes : String → String → Option (String × String)

/-- `Contains` from src/main.go: linear membership test on string lists. -/
def Contains : List String → String → Bool
  | [], _ => false
  | str :: rest, el => if str = el then true else Contains rest el

/-- `Difference` from src/main.go: `diff := []`, then for each `str` in
`a`, skip it if `Contains b str`, else append it. -/
def Difference (a b : List String) : List String :=
  a.foldl (fun diff str => if Contains b str then diff else diff ++ [str]) []

/-- `Task.Run` from src/main.go: log `begin <description>`, run the task
(whose own effects are `events` and whose returned error is `err`), then
log `finished <description>` on success or `error <description>: <cause>`
on failure. The task's error is consumed here: `runTask` returns only
the event trace, never an error. -/
def runTask (description : String) (events : List Event) (err : Option String) : List Event :=
  [Event.log ("begin " ++ description)] ++ events ++
    (match err with
     | none => [Event.log ("finished " ++ description)]
     | some e => [Event.log ("error " ++ description ++ ": " ++ e)])

/-- Error string standing in for a pagination loop that never reaches a
page with `NextPage == 0` within the available fuel (the Go loop would
just keep requesting pages; fuel makes the model total). -/
def fuelErr : String := "model: out of fuel"

/-- The pagination loop shared by the org branch (lines 133-148) and the
user branch (lines 154-172) of `Sync`: request `page`, on error stop with
the names accumulated so far (in Go the closure returns `err` while the
captured `allRepos` keeps its contents), otherwise append the names the
filter `keep` retains and continue with `resp.NextPage` unless it is `0`.
The two Go loops differ only in the filter, passed here as `keep`. -/
def listLoop (list : Nat → Except String (List Repo × Nat)) (keep : Repo → Option String) :
    Nat → Nat → List String → List String × Option String
  | 0, _, acc => (acc, some fuelErr)
  | fuel + 1, page, acc =>
    match list page with
    | .error e => (acc, some e)
    | .ok (repos, next) =>
      let acc2 := acc ++ repos.filterMap keep
      if next = 0 then (acc2, none)
      else listLoop list keep fuel next acc2

/-- The org-mode per-entry filter (lines 138-143): skip entries with no
name, keep the name otherwise. -/
def keepOrg (r : Repo) : Option String := r.name

/-- The user-mode per-entry filter (lines 159-167): skip entries with no
name; when `userRepoForks` is false, also skip entries whose `Fork` flag
is present and true. -/
def keepUser (userRepoForks : Bool) (r : Repo) : Option String :=
  match r.name with
  | none => none
  | some n =>
    if !userRepoForks && (match r.fork with | some f => f | none => false) then none
    else some n

/-- The body of the remote-listing task (lines 122-175): org mode when
`rs.org` is nonempty, else user mode when `rs.user` is nonempty, else
nothing. Returns the accumulated names and the closure's returned error. -/
def remoteAction (rs : RepoSync) (env : Env) (fuel : Nat) : List String × Option String :=
  if rs.org ≠ "" then listLoop env.orgList keepOrg fuel 0 []
  else if rs.user ≠ "" then listLoop env.userList (keepUser rs.userRepoForks) fuel 0 []
  else ([], none)

/-- The hidden-name test `strings.Index(f.Name(), ".") == 0` of line 182:
the name begins with the character `.` (in UTF-8 a leading `.` byte is a
leading `.` character). -/
def startsWithDot (s : String) : Bool :=
  match s.data with
  | c :: _ => c = '.'
  | [] => false

/-- The body of the local-listing task (lines 179-188): ignore the
`ReadDir` error (`files, _ := ioutil.ReadDir(...)`; on error the slice is
`nil`), keep entries that are directories and whose name does not start
with `"."`, and take their names. -/
def localList : Except String (List DirEntry) → List String
  | .error _ => []
  | .ok files => (files.filter fun f => f.isDir && !(startsWithDot f.name)).map DirEntry.name

/-- Description string of the remote-listing task (line 175). -/
def remoteDesc (rs : RepoSync) : String := "loading repos for " ++ rs.org ++ " " ++ rs.user

/-- Description string of the local-listing task (line 188). -/
def localDesc (rs : RepoSync) : String := "loading repos already cloned in " ++ rs.workdir

/-- `path.Join` for the clean, nonempty components this program builds. -/
def pathJoin (a b : String) : String := a ++ "/" ++ b

/-- One archive task (lines 202-213): in dry-run mode do nothing and
succeed, otherwise rename `<workdir>/<r>` to `<archivedir>/<r>` with the
outcome given by the environment; either way the task runs under
`runTask` with description `archiving <r>`. -/
def archiveEvents (rs : RepoSync) (env : Env) (r : String) : List Event :=
  runTask ("archiving " ++ r)
    (if rs.dryrun then [] else [Event.rename (pathJoin rs.workdir r) (pathJoin rs.archivedir r)])
    (if rs.dryrun then none else env.renameRes (pathJoin rs.workdir r) (pathJoin rs.archivedir r))

/-- The remote address used by the clone task (lines 224-231): the org
account when `rs.org` is nonempty, else the user account. -/
def cloneRemote (rs : RepoSync) (r : String) : String :=
  if rs.org ≠ "" then "git@github.com:" ++ rs.org ++ "/" ++ r
  else "git@github.com:" ++ rs.user ++ "/" ++ r

/-- One clone task (lines 216-236): in dry-run mode do nothing and
succeed, otherwise run `git clone <remote> <workdir>/<r>`; on failure the
error is wrapped with the captured combined output as
`<err> from <output>`. -/
def cloneEvents (rs : RepoSync) (env : Env) (r : String) : List Event :=
  runTask ("cloning " ++ r)
    (if rs.dryrun then [] else [Event.gitClone (cloneRemote rs r) (pathJoin rs.workdir r)])
    (if rs.dryrun then none
     else
       match env.cloneRes (cloneRemote rs r) (pathJoin rs.workdir r) with
       | some (e, out) => some (e ++ " from " ++ out)
       | none => none)

/-- `Sync` from src/main.go (lines 118-241): run the remote-listing task
and the local-listing task (both under `runTask`, which swallows their
errors), compute the two differences, short-circuit when both are empty,
otherwise create the archive directory (fatal on failure) and run one
archive task per stale checkout and one clone task per missing repo.
Returns the event trace and `Sync`'s returned error. -/
def Sync (rs : RepoSync) (env : Env) (fuel : Nat) : List Event × Option String :=
  let ra := remoteAction rs env fuel
  let e1 := runTask (remoteDesc rs) [] ra.2
  let e2 := runTask (localDesc rs) [] none
  let toA := Difference (localList env.readDir) ra.1
  let toC := Difference ra.1 (localList env.readDir)
  if toA.length + toC.length = 0 then
    (e1 ++ e2 ++ [Event.log "nothing to do!"], none)
  else
    match env.mkdirRes with
    | some e => (e1 ++ e2 ++ [Event.mkdirAll rs.archivedir], some e)
    | none =>
      (e1 ++ e2 ++ [Event.mkdirAll rs.archivedir]
        ++ (toA.map (archiveEvents rs env)).flatten
        ++ (toC.map (cloneEvents rs env)).flatten, none)

/-- The reconciliation decision of `Sync` (lines 190-191):
`(reposToArchive, reposToClone)`. -/
def syncPlan (rs : RepoSync) (env : Env) (fuel : Nat) : List String × List String :=
  (Difference (localList env.readDir) (remoteAction rs env fuel).1,
   Difference (remoteAction rs env fuel).1 (localList env.readDir))

/-- The startup validation of `main` (lines 37-48): fails unless
user-or-org, dir, archivedir and token are all provided. -/
def mainValidationOk (user org dir archivedir token : String) : Bool :=
  !(user = "" && org = "") && !(dir = "") && !(archivedir = "") && !(token = "")

/-! ### Basic lemmas about the set utilities -/

theorem Contains_iff_mem (l : List String) (x : String) : Contains l x = true ↔ x ∈ l := by
  induction l with
  | nil => simp [Contains]
  | cons a rest ih =>
    by_cases h : a = x
    · simp [Contains, h]
    · rw [Contains, if_neg h, ih]
      constructor
      · exact fun hx => List.mem_cons_of_mem a hx
      · intro hx
        rcases List.mem_cons.mp hx with h1 | h2
        · exact absurd h1.symm h
        · exact h2

theorem Difference_foldl (a b : List String) (acc : List String) :
    a.foldl (fun diff str => if Contains b str then diff else diff ++ [str]) acc
      = acc ++ a.filter (fun s => !Contains b s) := by
  induction a generalizing acc with
  | nil => simp
  | cons x rest ih =>
    simp only [List.foldl_cons, List.filter_cons]
    by_cases h : Contains b x = true
    · simp [h, ih]
    · simp only [Bool.not_eq_true] at h
      simp [h, ih, List.append_assoc]

/-- `Difference a b` keeps, in order and with multiplicity, exactly the
elements of `a` on which `Contains b` is false. -/
theorem Difference_eq_filter (a b : List String) :
    Difference a b = a.filter (fun s => !Contains b s) := by
  simpa using Difference_foldl a b []

/-- Specification-side pagination: the names collected page by page
starting at `page`, following each response's `NextPage` indicator and
stopping exactly when it is `0`; an error at some page keeps the names of
the pages before it and reports the error. -/
def collectNames (list : Nat → Except String (List Repo × Nat)) (keep : Repo → Option String) :
    Nat → Nat → List String × Option String
  | 0, _ => ([], some fuelErr)
  | fuel + 1, page =>
    match list page with
    | .error e => ([], some e)
    | .ok (repos, next) =>
      if next = 0 then (repos.filterMap keep, none)
      else
        let rest := collectNames list keep fuel next
        (repos.filterMap keep ++ rest.1, rest.2)

/-- The accumulator loop of the source refines the specification-side
page-by-page collection. -/
theorem listLoop_eq_collectNames (list : Nat → Except String (List Repo × Nat))
    (keep : Repo → Option String) :
    ∀ (fuel page : Nat) (acc : List String),
      listLoop list keep fuel page acc =
        (acc ++ (collectNames list keep fuel page).1, (collectNames list keep fuel page).2) := by
  intro fuel
  induction fuel with
  | zero => intro page acc; simp [listLoop, collectNames]
  | succ n ih =>
    intro page acc
    simp only [listLoop, collectNames]
    cases h : list page with
    | error e => simp
    | ok pr =>
      obtain ⟨repos, next⟩ := pr
      by_cases hn : next = 0
      · simp [hn]
      · simp [hn, ih, List.append_assoc]

theorem Contains_eq_false (l : List String) (x : String) : Contains l x = false ↔ x ∉ l := by
  rw [← Bool.not_eq_true, Contains_iff_mem]

theorem mem_Difference (a b : List String) (x : String) :
    x ∈ Difference a b ↔ x ∈ a ∧ x ∉ b := by
  rw [Difference_eq_filter]
  simp [List.mem_filter, Bool.not_eq_true', Contains_eq_false]

/-! ### Helper lemmas about the task runner and the trace of Sync -/

theorem begin_mem_runTask (d : String) (evs : List Event) (err : Option String) :
    Event.log ("begin " ++ d) ∈ runTask d evs err := by
  simp [runTask]

theorem mem_runTask (d : String) (evs : List Event) (err : Option String) (ev : Event)
    (h : ev ∈ runTask d evs err) : ev ∈ evs ∨ ∃ m, ev = Event.log m := by
  cases err with
  | none =>
    simp only [runTask, List.singleton_append, List.mem_cons, List.mem_append,
      List.mem_singleton] at h
    rcases h with (h | h) | h | h
    · exact Or.inr ⟨_, h⟩
    · exact Or.inl h
    · exact Or.inr ⟨_, h⟩
    · exact absurd h (List.not_mem_nil ev)
  | some e =>
    simp only [runTask, List.singleton_append, List.mem_cons, List.mem_append,
      List.mem_singleton] at h
    rcases h with (h | h) | h | h
    · exact Or.inr ⟨_, h⟩
    · exact Or.inl h
    · exact Or.inr ⟨_, h⟩
    · exact absurd h (List.not_mem_nil ev)

/-- The error component of `Sync`: `none` when there is nothing to do,
otherwise exactly the outcome of creating the archive directory. Errors
of the two listing tasks and of the per-repo tasks never reach it. -/
theorem Sync_snd (rs : RepoSync) (env : Env) (fuel : Nat) :
    (Sync rs env fuel).2 =
      if (Difference (localList env.readDir) (remoteAction rs env fuel).1).length
          + (Difference (remoteAction rs env fuel).1 (localList env.readDir)).length = 0
      then none else env.mkdirRes := by
  by_cases h : (Difference (localList env.readDir) (remoteAction rs env fuel).1).length
      + (Difference (remoteAction rs env fuel).1 (localList env.readDir)).length = 0
  · simp [Sync, h]
  · cases hm : env.mkdirRes <;> simp [Sync, h, hm]

/-- Every branch of `Sync` starts its trace with the remote-listing task's
events followed by the local-listing task's events. -/
theorem Sync_events_shape (rs : RepoSync) (env : Env) (fuel : Nat) :
    ∃ rest, (Sync rs env fuel).1 =
      runTask (remoteDesc rs) [] (remoteAction rs env fuel).2
        ++ runTask (localDesc rs) [] none ++ rest := by
  by_cases h : (Difference (localList env.readDir) (remoteAction rs env fuel).1).length
      + (Difference (remoteAction rs env fuel).1 (localList env.readDir)).length = 0
  · exact ⟨[Event.log "nothing to do!"], by simp [Sync, h]⟩
  · cases hm : env.mkdirRes with
    | none =>
      refine ⟨[Event.mkdirAll rs.archivedir]
        ++ ((Difference (localList env.readDir) (remoteAction rs env fuel).1).map
              (archiveEvents rs env)).flatten
        ++ ((Difference (remoteAction rs env fuel).1 (localList env.readDir)).map
              (cloneEvents rs env)).flatten, ?_⟩
      simp [Sync, h, hm, List.append_assoc]
    | some e =>
      exact ⟨[Event.mkdirAll rs.archivedir], by simp [Sync, h, hm]⟩

/-- The trace of `Sync` when there is work to do and the archive directory
was created successfully. -/
theorem Sync_events_pos (rs : RepoSync) (env : Env) (fuel : Nat)
    (h : ¬ ((Difference (localList env.readDir) (remoteAction rs env fuel).1).length
          + (Difference (remoteAction rs env fuel).1 (localList env.readDir)).length = 0))
    (hm : env.mkdirRes = none) :
    (Sync rs env fuel).1 =
      runTask (remoteDesc rs) [] (remoteAction rs env fuel).2
        ++ runTask (localDesc rs) [] none
        ++ [Event.mkdirAll rs.archivedir]
        ++ ((Difference (localList env.readDir) (remoteAction rs env fuel).1).map
              (archiveEvents rs env)).flatten
        ++ ((Difference (remoteAction rs env fuel).1 (localList env.readDir)).map
              (cloneEvents rs env)).flatten := by
  simp [Sync, h, hm]

theorem finished_mem_runTask (d : String) (evs : List Event) :
    Event.log ("finished " ++ d) ∈ runTask d evs none := by
  simp [runTask]

theorem begin_archiving (r : String) :
    "begin " ++ ("archiving " ++ r) = "begin archiving " ++ r := by
  rw [← String.append_assoc]; rfl

theorem finished_archiving (r : String) :
    "finished " ++ ("archiving " ++ r) = "finished archiving " ++ r := by
  rw [← String.append_assoc]; rfl

theorem begin_cloning (r : String) :
    "begin " ++ ("cloning " ++ r) = "begin cloning " ++ r := by
  rw [← String.append_assoc]; rfl

theorem finished_cloning (r : String) :
    "finished " ++ ("cloning " ++ r) = "finished cloning " ++ r := by
  rw [← String.append_assoc]; rfl

/-- Classification of the events `Sync` can emit: a log line, the creation
of the archive directory, a rename of a repo scheduled for archiving
(only outside dry-run mode), or a clone of a repo scheduled for cloning
(only outside dry-run mode, always against `cloneRemote`). -/
theorem mem_Sync_classify (rs : RepoSync) (env : Env) (fuel : Nat) (ev : Event)
    (hmem : ev ∈ (Sync rs env fuel).1) :
    (∃ m, ev = Event.log m)
    ∨ ev = Event.mkdirAll rs.archivedir
    ∨ (rs.dryrun = false
        ∧ ∃ r', r' ∈ Difference (localList env.readDir) (remoteAction rs env fuel).1
          ∧ ev = Event.rename (pathJoin rs.workdir r') (pathJoin rs.archivedir r'))
    ∨ (rs.dryrun = false
        ∧ ∃ r', r' ∈ Difference (remoteAction rs env fuel).1 (localList env.readDir)
          ∧ ev = Event.gitClone (cloneRemote rs r') (pathJoin rs.workdir r')) := by
  by_cases h0 : (Difference (localList env.readDir) (remoteAction rs env fuel).1).length
      + (Difference (remoteAction rs env fuel).1 (localList env.readDir)).length = 0
  · have hev : (Sync rs env fuel).1 =
        runTask (remoteDesc rs) [] (remoteAction rs env fuel).2
          ++ runTask (localDesc rs) [] none ++ [Event.log "nothing to do!"] := by
      simp [Sync, h0]
    rw [hev] at hmem
    rcases List.mem_append.mp hmem with hx | hx
    · rcases List.mem_append.mp hx with hx | hx <;>
        rcases mem_runTask _ _ _ _ hx with hx | hx
      · exact absurd hx (List.not_mem_nil ev)
      · exact Or.inl hx
      · exact absurd hx (List.not_mem_nil ev)
      · exact Or.inl hx
    · exact Or.inl ⟨_, List.mem_singleton.mp hx⟩
  · cases hm : env.mkdirRes with
    | some e =>
      have hev : (Sync rs env fuel).1 =
          runTask (remoteDesc rs) [] (remoteAction rs env fuel).2
            ++ runTask (localDesc rs) [] none ++ [Event.mkdirAll rs.archivedir] := by
        simp [Sync, h0, hm]
      rw [hev] at hmem
      rcases List.mem_append.mp hmem with hx | hx
      · rcases List.mem_append.mp hx with hx | hx <;>
          rcases mem_runTask _ _ _ _ hx with hx | hx
        · exact absurd hx (List.not_mem_nil ev)
        · exact Or.inl hx
        · exact absurd hx (List.not_mem_nil ev)
        · exact Or.inl hx
      · exact Or.inr (Or.inl (List.mem_singleton.mp hx))
    | none =>
      rw [Sync_events_pos rs env fuel h0 hm] at hmem
      rcases List.mem_append.mp hmem with hx | hx
      · rcases List.mem_append.mp hx with hx | hx
        · rcases List.mem_append.mp hx with hx | hx
          · rcases List.mem_append.mp hx with hx | hx <;>
              rcases mem_runTask _ _ _ _ hx with hx | hx
            · exact absurd hx (List.not_mem_nil ev)
            · exact Or.inl hx
            · exact absurd hx (List.not_mem_nil ev)
            · exact Or.inl hx
          · exact Or.inr (Or.inl (List.mem_singleton.mp hx))
        · obtain ⟨l, hl, hevl⟩ := List.mem_flatten.mp hx
          obtain ⟨r', hr', rfl⟩ := List.mem_map.mp hl
          rcases mem_runTask _ _ _ _ hevl with hx | hx
          · by_cases hd : rs.dryrun = true
            · rw [if_pos hd] at hx
              exact absurd hx (List.not_mem_nil ev)
            · rw [if_neg hd] at hx
              exact Or.inr (Or.inr (Or.inl
                ⟨by simpa using hd, r', hr', List.mem_singleton.mp hx⟩))
          · exact Or.inl hx
      · obtain ⟨l, hl, hevl⟩ := List.mem_flatten.mp hx
        obtain ⟨r', hr', rfl⟩ := List.mem_map.mp hl
        rcases mem_runTask _ _ _ _ hevl with hx | hx
        · by_cases hd : rs.dryrun = true
          · rw [if_pos hd] at hx
            exact absurd hx (List.not_mem_nil ev)
          · rw [if_neg hd] at hx
            exact Or.inr (Or.inr (Or.inr
              ⟨by simpa using hd, r', hr', List.mem_singleton.mp hx⟩))
        · exact Or.inl hx

/-! ### Concrete fixtures used by witnesses and counterexamples -/

/-- Org-mode configuration: org `acme`, workdir `w`, archive dir `a`. -/
def rsA : RepoSync :=
  { org := "acme", orgRepoType := "all", user := "", userRepoType := "all",
    userRepoForks := true, workdir := "w", archivedir := "a", token := "t", dryrun := false }

/-- Same configuration in dry-run mode. -/
def rsDry : RepoSync := { rsA with dryrun := true }

/-- Configuration with both an org and a user set. -/
def rsBoth : RepoSync := { rsA with user := "alice" }

/-- Environment: remote `{y, z}` on a single page; local `{x, y}`. -/
def envA : Env :=
  { orgList := fun p =>
      if p = 0 then .ok ([⟨some "y", none⟩, ⟨some "z", none⟩], 0) else .error "no such page",
    userList := fun _ => .ok ([], 0),
    readDir := .ok [⟨"x", true⟩, ⟨"y", true⟩, ⟨".git", true⟩, ⟨"f.txt", false⟩],
    mkdirRes := none,
    renameRes := fun _ _ => none,
    cloneRes := fun _ _ => none }

/-- Environment: remote `{x, y}` matching the non-hidden local directories. -/
def envSame : Env :=
  { envA with orgList := fun p =>
      if p = 0 then .ok ([⟨some "x", none⟩, ⟨some "y", none⟩], 0) else .error "no such page" }

/-- Environment whose remote listing fails immediately with `boom`. -/
def envErr : Env := { envA with orgList := fun _ => .error "boom" }

/-- Environment whose remote listing yields `{y}` on page 0 and fails with
`boom` on page 7, the indicated next page. -/
def envPartial : Env :=
  { envA with orgList := fun p =>
      if p = 0 then .ok ([⟨some "y", none⟩], 7) else .error "boom" }

/-- Page 0 of the two-page provider `pv`: a normal repo, a nameless entry
and a fork. -/
def pg0 : List Repo := [⟨some "a", none⟩, ⟨none, none⟩, ⟨some "f", some true⟩]

/-- Page 5 of the two-page provider `pv`. -/
def pg5 : List Repo := [⟨some "b", some false⟩]

/-- A two-page provider: page 0 points to page 5, page 5 is the last. -/
def pv : Nat → Except String (List Repo × Nat)
  | 0 => .ok (pg0, 5)
  | 5 => .ok (pg5, 0)
  | _ => .error "404"

/-- Environment whose remote listing is a single empty page. -/
def envEmptyRemote : Env :=
  { envA with orgList := fun p => if p = 0 then .ok ([], 0) else .error "no such page" }

/-! ### The claims -/

/-- C4: `Difference a b` returns exactly the elements of `a` with no equal
element in `b` — it is the order- and duplicate-preserving filter of `a`
by non-membership in `b` (`Contains` being exact-match membership) — and
`Difference a a = []`, `Difference a [] = a`, `Difference [] b = []`. -/
theorem c4_difference :
    (∀ a b : List String, Difference a b = a.filter fun s => !(Contains b s))
    ∧ (∀ (b : List String) (x : String), Contains b x = true ↔ x ∈ b)
    ∧ (∀ (a b : List String) (x : String), x ∈ Difference a b ↔ x ∈ a ∧ x ∉ b)
    ∧ (∀ a : List String, Difference a a = [])
    ∧ (∀ a : List String, Difference a [] = a)
    ∧ (∀ b : List String, Difference [] b = []) := by
  refine ⟨Difference_eq_filter, Contains_iff_mem, mem_Difference, ?_, ?_, fun b => rfl⟩
  · intro a
    rw [Difference_eq_filter]
    apply List.filter_eq_nil_iff.mpr
    intro x hx
    simp [Contains_iff_mem, hx]
  · intro a
    rw [Difference_eq_filter]
    apply List.filter_eq_self.mpr
    intro x _
    rfl

/-- C2: the reconciler's plan is `(Difference local remote,
Difference remote local)`, and a name present in both lists is scheduled
neither for archiving nor for cloning. -/
theorem c2_plan (rs : RepoSync) (env : Env) (fuel : Nat) (x : String)
    (hl : x ∈ localList env.readDir) (hr : x ∈ (remoteAction rs env fuel).1) :
    syncPlan rs env fuel
        = (Difference (localList env.readDir) (remoteAction rs env fuel).1,
           Difference (remoteAction rs env fuel).1 (localList env.readDir))
    ∧ x ∉ (syncPlan rs env fuel).1 ∧ x ∉ (syncPlan rs env fuel).2 := by
  refine ⟨rfl, ?_, ?_⟩
  · intro hmem
    exact absurd hr ((mem_Difference _ _ x).mp hmem).2
  · intro hmem
    exact absurd hl ((mem_Difference _ _ x).mp hmem).2

/-- C2 witness: local `{x, y}`, remote `{y, z}`; `y` is in both lists and
appears in neither component of the plan. -/
theorem c2_witness :
    ("y" ∈ localList envA.readDir ∧ "y" ∈ (remoteAction rsA envA 1).1)
    ∧ "y" ∉ (syncPlan rsA envA 1).1 ∧ "y" ∉ (syncPlan rsA envA 1).2 :=
  ⟨⟨by decide, by decide⟩, (c2_plan rsA envA 1 "y" (by decide) (by decide)).2⟩

/-- C6: the task runner logs `begin <description>` before the action's
effects, then `finished <description>` when the action returns no error
and `error <description>: <cause>` when it returns one; the action's
error is never propagated — observably, `Sync`'s returned error is the
archive-directory creation outcome alone, untouched by any task error. -/
theorem c6_task_runner (description : String) (events : List Event) :
    runTask description events none
        = Event.log ("begin " ++ description)
            :: (events ++ [Event.log ("finished " ++ description)])
    ∧ (∀ e, runTask description events (some e)
        = Event.log ("begin " ++ description)
            :: (events ++ [Event.log ("error " ++ description ++ ": " ++ e)]))
    ∧ (∀ (rs : RepoSync) (env : Env) (fuel : Nat),
        (Sync rs env fuel).2
          = if (Difference (localList env.readDir) (remoteAction rs env fuel).1).length
              + (Difference (remoteAction rs env fuel).1 (localList env.readDir)).length = 0
            then none else env.mkdirRes) :=
  ⟨rfl, fun _ => rfl, Sync_snd⟩

/-- C7: the local lister keeps exactly the names of immediate entries that
are directories and do not begin with the hidden marker `.`; a read error
yields the empty result; and the local-listing task never fails — every
run of `Sync` logs it as finished. -/
theorem c7_local_lister :
    (∀ (files : List DirEntry) (n : String),
        n ∈ localList (.ok files)
          ↔ ∃ f ∈ files, f.isDir = true ∧ startsWithDot f.name = false ∧ f.name = n)
    ∧ (∀ e, localList (.error e) = [])
    ∧ (∀ (rs : RepoSync) (env : Env) (fuel : Nat),
        Event.log ("finished " ++ localDesc rs) ∈ (Sync rs env fuel).1) := by
  refine ⟨?_, fun e => rfl, ?_⟩
  · intro files n
    simp only [localList, List.mem_map, List.mem_filter, Bool.and_eq_true, Bool.not_eq_true']
    constructor
    · rintro ⟨f, ⟨hf, hd, hs⟩, hn⟩
      exact ⟨f, hf, hd, hs, hn⟩
    · rintro ⟨f, hf, hd, hs, hn⟩
      exact ⟨f, ⟨hf, hd, hs⟩, hn⟩
  · intro rs env fuel
    obtain ⟨rest, hrest⟩ := Sync_events_shape rs env fuel
    rw [hrest]
    exact List.mem_append.mpr (Or.inl (List.mem_append.mpr
      (Or.inr (finished_mem_runTask (localDesc rs) []))))

/-- C8: the pagination loop accumulates, onto the names gathered so far,
exactly the page-by-page collection that follows each response's
next-page indicator; it returns without requesting further pages exactly
when the indicator is the sentinel `0`, and requests the indicated page
when it is not; the filters skip entries with no name and, in user mode
with fork inclusion disabled, entries flagged as forks. -/
theorem c8_pagination (list : Nat → Except String (List Repo × Nat)) (keep : Repo → Option String)
    (fuel page : Nat) (acc : List String) (repos : List Repo) :
    (listLoop list keep fuel page acc
        = (acc ++ (collectNames list keep fuel page).1, (collectNames list keep fuel page).2))
    ∧ (list page = .ok (repos, 0) →
        listLoop list keep (fuel + 1) page acc = (acc ++ repos.filterMap keep, none))
    ∧ (∀ next, list page = .ok (repos, next) → next ≠ 0 →
        listLoop list keep (fuel + 1) page acc
          = listLoop list keep fuel next (acc ++ repos.filterMap keep))
    ∧ (∀ r : Repo, r.name = none → keepUser false r = none)
    ∧ (∀ (n : String) (f : Bool),
        keepUser false ⟨some n, some f⟩ = if f then none else some n)
    ∧ (∀ r : Repo, keepOrg r = r.name) := by
  refine ⟨listLoop_eq_collectNames list keep fuel page acc, ?_, ?_, ?_, ?_, fun r => rfl⟩
  · intro h
    simp [listLoop, h]
  · intro next h hn
    simp [listLoop, h, hn]
  · intro r h
    simp [keepUser, h]
  · intro n f
    cases f <;> rfl

/-- C8 witness: the two-page provider `pv` (page 0 with a normal repo, a
nameless entry and a fork, pointing at page 5; page 5 final): the loop
collects `a` then `b`, skipping the nameless entry and the fork. -/
theorem c8_witness :
    listLoop pv (keepUser false) 2 0 [] = (["a", "b"], none)
    ∧ listLoop pv (keepUser false) 1 5 ["a"] = (["a", "b"], none)
    ∧ listLoop pv (keepUser false) 2 0 [] = listLoop pv (keepUser false) 1 5 ["a"] := by
  refine ⟨?_, ?_, ?_⟩
  · exact (c8_pagination pv (keepUser false) 2 0 [] []).1.trans (by decide)
  · exact ((c8_pagination pv (keepUser false) 0 5 ["a"] pg5).2.1 rfl).trans (by decide)
  · have h := (c8_pagination pv (keepUser false) 1 0 [] pg0).2.2.1 5 rfl (by decide)
    exact h.trans (by decide)

/-- C5: when both differences are empty, `Sync` logs `nothing to do!` and
returns success, and its whole trace consists of log lines only — no
directory creation, no rename, no clone. -/
theorem c5_nothing_to_do (rs : RepoSync) (env : Env) (fuel : Nat)
    (hA : Difference (localList env.readDir) (remoteAction rs env fuel).1 = [])
    (hC : Difference (remoteAction rs env fuel).1 (localList env.readDir) = []) :
    (Sync rs env fuel).2 = none
    ∧ Event.log "nothing to do!" ∈ (Sync rs env fuel).1
    ∧ ∀ ev ∈ (Sync rs env fuel).1, ∃ m, ev = Event.log m := by
  have h0 : (Difference (localList env.readDir) (remoteAction rs env fuel).1).length
      + (Difference (remoteAction rs env fuel).1 (localList env.readDir)).length = 0 := by
    rw [hA, hC]
    rfl
  have hev : (Sync rs env fuel).1 =
      runTask (remoteDesc rs) [] (remoteAction rs env fuel).2
        ++ runTask (localDesc rs) [] none ++ [Event.log "nothing to do!"] := by
    simp [Sync, h0]
  refine ⟨?_, ?_, ?_⟩
  · rw [Sync_snd]
    simp [h0]
  · rw [hev]
    simp
  · intro ev hmem
    rw [hev] at hmem
    rcases List.mem_append.mp hmem with hx | hx
    · rcases List.mem_append.mp hx with hx | hx <;>
        rcases mem_runTask _ _ _ _ hx with hx | hx
      · exact absurd hx (List.not_mem_nil ev)
      · exact hx
      · exact absurd hx (List.not_mem_nil ev)
      · exact hx
    · exact ⟨_, List.mem_singleton.mp hx⟩

/-- C5 witness: local `{x, y}` (plus a hidden directory and a file) and
remote `{x, y}`: both differences are empty, `Sync` succeeds, logs
`nothing to do!`, and emits log lines only. -/
theorem c5_witness :
    (Difference (localList envSame.readDir) (remoteAction rsA envSame 1).1 = []
      ∧ Difference (remoteAction rsA envSame 1).1 (localList envSame.readDir) = [])
    ∧ (Sync rsA envSame 1).2 = none
    ∧ Event.log "nothing to do!" ∈ (Sync rsA envSame 1).1 :=
  ⟨⟨by decide, by decide⟩,
   (c5_nothing_to_do rsA envSame 1 (by decide) (by decide)).1,
   (c5_nothing_to_do rsA envSame 1 (by decide) (by decide)).2.1⟩

/-- C3 as stated is false on the code: in dry-run mode, with `x` and `y`
planned for archiving, `Sync` still performs a directory creation — the
archive directory is created by `MkdirAll` regardless of the dry-run
flag. -/
theorem c3_counterexample :
    rsDry.dryrun = true
    ∧ (syncPlan rsDry envEmptyRemote 1).1 = ["x", "y"]
    ∧ Event.mkdirAll "a" ∈ (Sync rsDry envEmptyRemote 1).1 := by decide

/-- C3 (amended): in dry-run mode no rename and no clone is ever
performed; the archive directory is still created whenever there is work
to do; and when its creation succeeds, begin/finished lines are logged
for every planned archive and for every planned clone. -/
theorem c3_dryrun (rs : RepoSync) (env : Env) (fuel : Nat) (h : rs.dryrun = true) :
    (∀ s d, Event.rename s d ∉ (Sync rs env fuel).1)
    ∧ (∀ a d, Event.gitClone a d ∉ (Sync rs env fuel).1)
    ∧ (¬ ((syncPlan rs env fuel).1.length + (syncPlan rs env fuel).2.length = 0) →
        Event.mkdirAll rs.archivedir ∈ (Sync rs env fuel).1)
    ∧ (env.mkdirRes = none →
        ∀ r ∈ (syncPlan rs env fuel).1,
          Event.log ("begin archiving " ++ r) ∈ (Sync rs env fuel).1
          ∧ Event.log ("finished archiving " ++ r) ∈ (Sync rs env fuel).1)
    ∧ (env.mkdirRes = none →
        ∀ r ∈ (syncPlan rs env fuel).2,
          Event.log ("begin cloning " ++ r) ∈ (Sync rs env fuel).1
          ∧ Event.log ("finished cloning " ++ r) ∈ (Sync rs env fuel).1) := by
  refine ⟨?_, ?_, ?_, ?_, ?_⟩
  · intro s d hmem
    rcases mem_Sync_classify rs env fuel _ hmem with ⟨m, hx⟩ | hx | ⟨hd, _⟩ | ⟨hd, _⟩
    · exact Event.noConfusion hx
    · exact Event.noConfusion hx
    · rw [h] at hd
      exact Bool.noConfusion hd
    · rw [h] at hd
      exact Bool.noConfusion hd
  · intro a d hmem
    rcases mem_Sync_classify rs env fuel _ hmem with ⟨m, hx⟩ | hx | ⟨hd, _⟩ | ⟨hd, _⟩
    · exact Event.noConfusion hx
    · exact Event.noConfusion hx
    · rw [h] at hd
      exact Bool.noConfusion hd
    · rw [h] at hd
      exact Bool.noConfusion hd
  · intro h0
    have h0' : ¬ ((Difference (localList env.readDir) (remoteAction rs env fuel).1).length
        + (Difference (remoteAction rs env fuel).1 (localList env.readDir)).length = 0) := h0
    cases hm : env.mkdirRes with
    | some e =>
      have hev : (Sync rs env fuel).1 =
          runTask (remoteDesc rs) [] (remoteAction rs env fuel).2
            ++ runTask (localDesc rs) [] none ++ [Event.mkdirAll rs.archivedir] := by
        simp [Sync, h0', hm]
      rw [hev]
      simp
    | none =>
      rw [Sync_events_pos rs env fuel h0' hm]
      simp
  · intro hm r hr
    have hr' : r ∈ Difference (localList env.readDir) (remoteAction rs env fuel).1 := hr
    have h0 : ¬ ((Difference (localList env.readDir) (remoteAction rs env fuel).1).length
        + (Difference (remoteAction rs env fuel).1 (localList env.readDir)).length = 0) := by
      intro hz
      have h1 : (Difference (localList env.readDir) (remoteAction rs env fuel).1).length = 0 := by
        omega
      rw [List.length_eq_zero.mp h1] at hr'
      exact absurd hr' (List.not_mem_nil r)
    have harch : archiveEvents rs env r
        = runTask ("archiving " ++ r) [] none := by
      simp [archiveEvents, h]
    constructor
    · rw [Sync_events_pos rs env fuel h0 hm, ← begin_archiving r]
      exact List.mem_append.mpr (Or.inl (List.mem_append.mpr (Or.inr
        (List.mem_flatten.mpr ⟨archiveEvents rs env r, List.mem_map_of_mem _ hr',
          begin_mem_runTask ("archiving " ++ r) _ _⟩))))
    · rw [Sync_events_pos rs env fuel h0 hm, ← finished_archiving r]
      refine List.mem_append.mpr (Or.inl (List.mem_append.mpr (Or.inr
        (List.mem_flatten.mpr ⟨archiveEvents rs env r, List.mem_map_of_mem _ hr', ?_⟩))))
      rw [harch]
      exact finished_mem_runTask ("archiving " ++ r) []
  · intro hm r hr
    have hr' : r ∈ Difference (remoteAction rs env fuel).1 (localList env.readDir) := hr
    have h0 : ¬ ((Difference (localList env.readDir) (remoteAction rs env fuel).1).length
        + (Difference (remoteAction rs env fuel).1 (localList env.readDir)).length = 0) := by
      intro hz
      have h1 : (Difference (remoteAction rs env fuel).1 (localList env.readDir)).length = 0 := by
        omega
      rw [List.length_eq_zero.mp h1] at hr'
      exact absurd hr' (List.not_mem_nil r)
    have hclone : cloneEvents rs env r
        = runTask ("cloning " ++ r) [] none := by
      simp [cloneEvents, h]
    constructor
    · rw [Sync_events_pos rs env fuel h0 hm, ← begin_cloning r]
      exact List.mem_append.mpr (Or.inr
        (List.mem_flatten.mpr ⟨cloneEvents rs env r, List.mem_map_of_mem _ hr',
          begin_mem_runTask ("cloning " ++ r) _ _⟩))
    · rw [Sync_events_pos rs env fuel h0 hm, ← finished_cloning r]
      refine List.mem_append.mpr (Or.inr
        (List.mem_flatten.mpr ⟨cloneEvents rs env r, List.mem_map_of_mem _ hr', ?_⟩))
      rw [hclone]
      exact finished_mem_runTask ("cloning " ++ r) []

/-- C3 witness: the dry-run configuration with `x` and `y` planned for
archiving performs no rename, yet logs begin and finished for archiving
`x`. -/
theorem c3_witness :
    rsDry.dryrun = true
    ∧ Event.rename "w/x" "a/x" ∉ (Sync rsDry envEmptyRemote 1).1
    ∧ Event.log "begin archiving x" ∈ (Sync rsDry envEmptyRemote 1).1
    ∧ Event.log "finished archiving x" ∈ (Sync rsDry envEmptyRemote 1).1 := by
  have h := c3_dryrun rsDry envEmptyRemote 1 rfl
  have hx := h.2.2.2.1 rfl "x" (by decide)
  exact ⟨rfl, h.1 "w/x" "a/x", hx.1, hx.2⟩

/-- C1 as stated is false on the code: the remote listing is run inside
the task runner, which swallows its error. With a listing that fails
immediately (`boom`) and local checkouts `x`, `y`, `Sync` does not return
the error — it returns success — and filesystem mutation does occur: both
local directories are renamed into the archive. -/
theorem c1_counterexample :
    (remoteAction rsA envErr 1).2 = some "boom"
    ∧ (Sync rsA envErr 1).2 = none
    ∧ Event.rename "w/x" "a/x" ∈ (Sync rsA envErr 1).1
    ∧ Event.log "error loading repos for acme : boom" ∈ (Sync rsA envErr 1).1 := by decide

/-- C1 (amended): when the remote listing fails, the task runner logs the
error (`error loading repos ...: <cause>`) and swallows it; `Sync` never
returns it — `Sync`'s returned error is either `none` or the outcome of
creating the archive directory, and reconciliation proceeds with the
names accumulated before the failure. -/
theorem c1_swallowed (rs : RepoSync) (env : Env) (fuel : Nat) (e : String)
    (h : (remoteAction rs env fuel).2 = some e) :
    Event.log ("error " ++ remoteDesc rs ++ ": " ++ e) ∈ (Sync rs env fuel).1
    ∧ ((Sync rs env fuel).2 = none ∨ (Sync rs env fuel).2 = env.mkdirRes) := by
  constructor
  · obtain ⟨rest, hrest⟩ := Sync_events_shape rs env fuel
    rw [hrest, h]
    have hx : Event.log ("error " ++ remoteDesc rs ++ ": " ++ e)
        ∈ runTask (remoteDesc rs) [] (some e) := by
      simp [runTask]
    exact List.mem_append.mpr (Or.inl (List.mem_append.mpr (Or.inl hx)))
  · rw [Sync_snd]
    by_cases h0 : (Difference (localList env.readDir) (remoteAction rs env fuel).1).length
        + (Difference (remoteAction rs env fuel).1 (localList env.readDir)).length = 0
    · exact Or.inl (by rw [if_pos h0])
    · exact Or.inr (by rw [if_neg h0])

/-- C1 witness: the failing listing of `c1_swallowed` instantiated at the
concrete environment whose first page request fails with `boom`. -/
theorem c1_witness :
    (remoteAction rsA envErr 1).2 = some "boom"
    ∧ Event.log ("error " ++ remoteDesc rsA ++ ": " ++ "boom") ∈ (Sync rsA envErr 1).1
    ∧ ((Sync rsA envErr 1).2 = none ∨ (Sync rsA envErr 1).2 = envErr.mkdirRes) := by
  have h := c1_swallowed rsA envErr 1 "boom" (by decide)
  exact ⟨by decide, h.1, h.2⟩

/-- C9: if page 0 succeeds with repositories `repos1` and points at a
further page `p` whose request fails, the names of `repos1` remain the
remote set together with the error; any local checkout not among them is
scheduled for archiving, and (when the archive directory is created
successfully) its archive task is started. -/
theorem c9_partial (rs : RepoSync) (env : Env) (fuel : Nat) (repos1 : List Repo) (p : Nat)
    (e : String) (r : String)
    (horg : rs.org ≠ "") (h0 : env.orgList 0 = .ok (repos1, p)) (hp : p ≠ 0)
    (herr : env.orgList p = .error e)
    (hloc : r ∈ localList env.readDir) (hnot : r ∉ repos1.filterMap keepOrg) :
    remoteAction rs env (fuel + 2) = (repos1.filterMap keepOrg, some e)
    ∧ r ∈ (syncPlan rs env (fuel + 2)).1
    ∧ (env.mkdirRes = none →
        Event.log ("begin archiving " ++ r) ∈ (Sync rs env (fuel + 2)).1) := by
  have hra : remoteAction rs env (fuel + 2) = (repos1.filterMap keepOrg, some e) := by
    unfold remoteAction
    rw [if_pos horg]
    show listLoop env.orgList keepOrg ((fuel + 1) + 1) 0 [] = _
    simp only [listLoop]
    rw [h0]
    simp only [if_neg hp]
    rw [herr]
    simp
  have hmemA : r ∈ Difference (localList env.readDir) (remoteAction rs env (fuel + 2)).1 := by
    refine (mem_Difference _ _ r).mpr ⟨hloc, ?_⟩
    rw [hra]
    exact hnot
  refine ⟨hra, hmemA, ?_⟩
  intro hm
  have h0' : ¬ ((Difference (localList env.readDir) (remoteAction rs env (fuel + 2)).1).length
      + (Difference (remoteAction rs env (fuel + 2)).1 (localList env.readDir)).length
        = 0) := by
    intro hz
    have h1 : (Difference (localList env.readDir)
        (remoteAction rs env (fuel + 2)).1).length = 0 := by
      omega
    rw [List.length_eq_zero.mp h1] at hmemA
    exact absurd hmemA (List.not_mem_nil r)
  rw [Sync_events_pos rs env (fuel + 2) h0' hm, ← begin_archiving r]
  exact List.mem_append.mpr (Or.inl (List.mem_append.mpr (Or.inr
    (List.mem_flatten.mpr ⟨archiveEvents rs env r, List.mem_map_of_mem _ hmemA,
      begin_mem_runTask ("archiving " ++ r) _ _⟩))))

/-- C9 witness: page 0 yields `{y}` and points at page 7, whose request
fails with `boom`; local `x` is not on page 0, so it is scheduled for
archiving and its archive task begins. -/
theorem c9_witness :
    (envPartial.orgList 0 = .ok ([⟨some "y", none⟩], 7)
      ∧ envPartial.orgList 7 = .error "boom"
      ∧ "x" ∈ localList envPartial.readDir)
    ∧ remoteAction rsA envPartial 2 = (["y"], some "boom")
    ∧ "x" ∈ (syncPlan rsA envPartial 2).1
    ∧ Event.log "begin archiving x" ∈ (Sync rsA envPartial 2).1 := by
  have h := c9_partial rsA envPartial 0 [⟨some "y", none⟩] 7 "boom" "x"
    (by decide) rfl (by decide) rfl (by decide) (by decide)
  exact ⟨⟨rfl, rfl, by decide⟩, h.1, h.2.1, h.2.2 rfl⟩

/-- C10: when both a user and an organization are configured, startup
validation passes (it only rejects when both are empty), and organization
mode takes precedence everywhere: the remote listing is the org-mode loop
(its result mentions no user-mode field, so the fork flag and other user
filters are ignored), and every clone command `Sync` issues uses the
organization account in its remote address. -/
theorem c10_org_precedence (rs : RepoSync) (env : Env) (fuel : Nat) (r : String)
    (h : rs.org ≠ "") :
    remoteAction rs env fuel = listLoop env.orgList keepOrg fuel 0 []
    ∧ cloneRemote rs r = "git@github.com:" ++ rs.org ++ "/" ++ r
    ∧ (∀ a d, Event.gitClone a d ∈ (Sync rs env fuel).1 →
        ∃ r', a = "git@github.com:" ++ rs.org ++ "/" ++ r')
    ∧ (∀ user dir archivedir token : String, user ≠ "" →
        dir ≠ "" → archivedir ≠ "" → token ≠ "" →
        mainValidationOk user rs.org dir archivedir token = true) := by
  refine ⟨?_, ?_, ?_, ?_⟩
  · unfold remoteAction
    rw [if_pos h]
  · unfold cloneRemote
    rw [if_pos h]
  · intro a d hmem
    rcases mem_Sync_classify rs env fuel _ hmem with ⟨m, hx⟩ | hx | ⟨_, _, _, hx⟩ | hcl
    · exact Event.noConfusion hx
    · exact Event.noConfusion hx
    · exact Event.noConfusion hx
    · obtain ⟨_, r', _, hx⟩ := hcl
      refine ⟨r', ?_⟩
      have ha : a = cloneRemote rs r' := by
        injection hx with ha _
      rw [ha]
      unfold cloneRemote
      rw [if_pos h]
  · intro user dir archivedir token hu hd ha ht
    simp [mainValidationOk, hu, hd, ha, ht]

/-- C10 witness: with user `alice` and org `acme` both set, validation
passes, listing is by org, and the clone remote uses `acme`. -/
theorem c10_witness :
    (rsBoth.user = "alice" ∧ rsBoth.org = "acme")
    ∧ remoteAction rsBoth envA 1 = listLoop envA.orgList keepOrg 1 0 []
    ∧ cloneRemote rsBoth "r" = "git@github.com:acme/r"
    ∧ mainValidationOk "alice" rsBoth.org "w" "a" "t" = true := by
  have h := c10_org_precedence rsBoth envA 1 "r" (by decide)
  refine ⟨⟨rfl, rfl⟩, h.1, h.2.1.trans (by decide), ?_⟩
  exact h.2.2.2 "alice" "w" "a" "t" (by decide) (by decide) (by decide) (by decide)

end Reposync
